import Mathlib

/-!
Verification of the core of `setigen/frame.py`: the Frame coordinate model,
the signal compositor (`add_signal`), the constant-drift-rate wrapper
(`add_constant_signal`), the noise injector (`add_noise`), and the
intensity/SNR calibration.  Machine floats are embedded as exact rationals
(`ℚ`); the only genuinely real-valued quantities (square roots used by the
noise statistics and SNR calibration) live in `ℝ`.  Fallible Python
operations (out-of-range list indexing, profile shape checks, unsupported
profile names) are embedded with `Except String`.
-/

/-- Arithmetic mean of a list of rationals (`np.mean`); mean of the empty
list is `0/0 = 0`, mirroring the NaN-producing degenerate case only in
places the proofs never rely on. -/
def listMean (xs : List ℚ) : ℚ := xs.sum / xs.length

/-- Population variance of a list of rationals (the square of `np.std`). -/
def listVar (xs : List ℚ) : ℚ :=
  (xs.map (fun x => (x - listMean xs) ^ 2)).sum / xs.length

/-- Exact-arithmetic embedding of `np.arange(start, stop, step)`:
`⌈(stop - start) / step⌉` evenly spaced values beginning at `start`. -/
def arange (start stop step : ℚ) : List ℚ :=
  (List.range (⌈(stop - start) / step⌉).toNat).map
    (fun k : ℕ => start + (k : ℚ) * step)

/-- Exact-arithmetic embedding of `np.linspace(a, b, n)`: `n` points from
`a` to `b` inclusive (for `n = 1` numpy returns `[a]`, matched here because
division by zero yields zero in `ℚ`). -/
def linspace (a b : ℚ) (n : ℕ) : List ℚ :=
  (List.range n).map (fun k : ℕ => a + (k : ℚ) * ((b - a) / ((n : ℚ) - 1)))

/-- Python list indexing `xs[i]`: negative indices wrap once from the end;
anything still out of range raises `IndexError`. -/
def pyGet (xs : List ℚ) (i : ℤ) : Except String ℚ :=
  let j : ℤ := if i < 0 then i + xs.length else i
  if h : 0 ≤ j ∧ j.toNat < xs.length then .ok (xs.get ⟨j.toNat, h.2⟩)
  else .error "IndexError"

/-- Python slice endpoint normalization for `xs[a:b]` on a list of length
`len`: negative endpoints count from the end, then clamp into `[0, len]`. -/
def pySliceIdx (len : ℕ) (i : ℤ) : ℕ :=
  if i < 0 then (i + len).toNat else min i.toNat len

/-- Python slice `xs[a:b]`. -/
def listSlice (xs : List ℚ) (a b : ℤ) : List ℚ :=
  let lo := pySliceIdx xs.length a
  let hi := pySliceIdx xs.length b
  (xs.drop lo).take (hi - lo)

/-- `np.round` on an exact rational scalar: round half to even. -/
def npRound (q : ℚ) : ℤ :=
  let b := ⌊q⌋
  let r := q - b
  if r < 1 / 2 then b
  else if 1 / 2 < r then b + 1
  else if Even b then b else b + 1

/-- A two-dimensional intensity grid, indexed by (time row, frequency
column); cells outside the frame's shape are junk by convention. -/
abbrev Grid := ℕ → ℕ → ℚ

/-- The Frame data model (`Frame.__init__` state): grid geometry,
resolutions, the reference maximum frequency `fmax = fch1`, the mutable
data grid, and the running noise statistics.  The derived axes `fs`, `ts`
and the derived `fmin` are recomputed immediately after every mutation of
the fields they depend on in the source (`_update_fs` / `_update_ts`), so
they are embedded as derived functions rather than stored fields. -/
structure Frame where
  fchans : ℕ
  tchans : ℕ
  df : ℚ
  dt : ℚ
  fmax : ℚ
  data : Grid
  noise_mean : ℝ
  noise_std : ℝ

/-- `Frame._update_fs`: `np.arange(fmax, fmax - fchans*df, -df)` reversed
into ascending order. -/
def fsOf (F : Frame) : List ℚ :=
  (arange F.fmax (F.fmax - F.fchans * F.df) (-F.df)).reverse

/-- `Frame._update_fs` also stores `fmin = fs[0]`. -/
def fminOf (F : Frame) : ℚ := (fsOf F).getD 0 0

/-- `Frame._update_ts`: `np.arange(0, tchans*dt, dt)`. -/
def tsOf (F : Frame) : List ℚ := arange 0 (F.tchans * F.dt) F.dt

/-- `Frame.set_df`: store `abs(df)` and refresh the frequency axis. -/
def setDf (F : Frame) (df : ℚ) : Frame := { F with df := |df| }

/-- `Frame.set_dt`: store `dt` and refresh the time axis. -/
def setDt (F : Frame) (dt : ℚ) : Frame := { F with dt := dt }

/-- `Frame.set_data`: replace the grid, take the new shape from it, and
refresh both axes. -/
def setData (F : Frame) (data : Grid) (tchans fchans : ℕ) : Frame :=
  { F with data := data, tchans := tchans, fchans := fchans }

/-- `Frame.get_index`: `int(np.round((frequency - fmin) / df))`. -/
def getIndex (F : Frame) (frequency : ℚ) : ℤ :=
  npRound ((frequency - fminOf F) / F.df)

/-- `Frame.get_frequency`: `self.fs[index]`, with Python indexing. -/
def getFrequency (F : Frame) (index : ℤ) : Except String ℚ :=
  pyGet (fsOf F) index

/-- `Frame.get_intensity`: `snr * noise_std / sqrt(tchans)`, raising a
ValueError ("NoNoisePresent") when `noise_std == 0`. -/
noncomputable def getIntensity (F : Frame) (snr : ℝ) : Except String ℝ :=
  if F.noise_std = 0 then .error "NoNoisePresent"
  else .ok (snr * F.noise_std / Real.sqrt F.tchans)

/-- `Frame.get_snr`: `intensity * sqrt(tchans) / noise_std`, raising a
ValueError ("NoNoisePresent") when `noise_std == 0`. -/
noncomputable def getSnr (F : Frame) (intensity : ℝ) : Except String ℝ :=
  if F.noise_std = 0 then .error "NoNoisePresent"
  else .ok (intensity * Real.sqrt F.tchans / F.noise_std)

/-- Modelled from the spec: `distributions.gaussian(mean, std, shape)` is
not under `src/`; the spec says `add_noise` "draws one Gaussian sample of
the grid's shape".  The randomness is made explicit: `u` is the grid of
standard-normal draws and the sample is `mean + std * u`. -/
def gaussianNoise (xMean xStd : ℚ) (u : Grid) : Grid :=
  fun t c => xMean + xStd * u t c

/-- Modelled from the spec: `distributions.truncated_gaussian` is not
under `src/`; the spec describes it as a "left-truncated Gaussian clipped
at `min`", embedded as clipping the Gaussian sample from below at the
minimum. -/
def truncatedGaussianNoise (xMean xStd xMin : ℚ) (u : Grid) : Grid :=
  fun t c => max xMin (xMean + xStd * u t c)

/-- The frame's grid flattened to a list of cell values (row major). -/
def frameList (F : Frame) : List ℚ :=
  ((List.range F.tchans).map
    (fun t => (List.range F.fchans).map (fun c => F.data t c))).flatten

/-- Modelled from the spec: one iteration of `astropy.stats.sigma_clip`
(an external collaborator): keep the samples within `sigma = 3` standard
deviations of the running mean.  The comparison is squared so it stays in
exact rational arithmetic. -/
def clipOnce (xs : List ℚ) : List ℚ :=
  xs.filter (fun x => decide ((x - listMean xs) ^ 2 ≤ 9 * listVar xs))

/-- Modelled from the spec: `astropy.stats.sigma_clip` with `maxiters`
iterations, stopping early once an iteration removes nothing
(convergence). -/
def sigmaClipIter : ℕ → List ℚ → List ℚ
  | 0, xs => xs
  | n + 1, xs =>
    let ys := clipOnce xs
    if ys.length = xs.length then xs else sigmaClipIter n ys

/-- `Frame._update_noise_frame_stats`: sigma-clip the grid at 3 standard
deviations for up to 5 iterations, then store the mean and standard
deviation of the surviving samples. -/
noncomputable def updateNoiseFrameStats (F : Frame) : Frame :=
  let xs := sigmaClipIter 5 (frameList F)
  { F with noise_mean := (listMean xs : ℝ),
           noise_std := Real.sqrt (listVar xs) }

/-- `Frame.add_noise`: add the drawn noise grid to `data`; if the noise
statistics were still at the zero-zero sentinel, set them directly to the
parameters, otherwise recompute them from the accumulated grid.  Returns
the mutated frame together with the noise grid the method returns. -/
noncomputable def addNoise (F : Frame) (xMean xStd : ℚ) (xMin : Option ℚ)
    (u : Grid) : Frame × Grid :=
  let noise : Grid :=
    match xMin with
    | some m => truncatedGaussianNoise xMean xStd m u
    | none => gaussianNoise xMean xStd u
  let F1 : Frame := { F with data := fun t c => F.data t c + noise t c }
  if F.noise_mean = 0 ∧ F.noise_std = 0 then
    ({ F1 with noise_mean := (xMean : ℝ), noise_std := (xStd : ℝ) }, noise)
  else
    (updateNoiseFrameStats F1, noise)

/-- A polymorphic profile argument of `add_signal`: a callable, a
pre-computed array, or a scalar constant (`Frame.add_signal` accepts a
function, an `ndarray`/list, or an `int`/`float` for `path`, `t_profile`
and `bp_profile`). -/
inductive SigProfile where
  | fn (f : ℚ → ℚ)
  | arr (xs : List ℚ)
  | const (c : ℚ)

/-- Riemann-sum integration of a callable along the time axis
(`add_signal`, `integrate_t_profile`/`integrate_path` branches): evaluate
on `np.linspace(0, tchans*dt, tchans*t_subsamples)`, reshape to
`(tchans, t_subsamples)` and average each row. -/
def integrateOverTime (F : Frame) (f : ℚ → ℚ) (tSubsamples : ℕ) : List ℚ :=
  let newTs := linspace 0 (F.tchans * F.dt) (F.tchans * tSubsamples)
  let y := newTs.map f
  (List.range F.tchans).map
    (fun i => listMean ((y.drop (i * tSubsamples)).take tSubsamples))

/-- Resolution of `t_profile` and `path` in `add_signal`: a callable is
evaluated over the time axis (optionally integrated), an array must match
the time axis shape (else `ValueError`), a scalar is broadcast to
`tchans` entries. -/
def resolveTimeProfile (F : Frame) (p : SigProfile) (integrate : Bool)
    (tSubsamples : ℕ) : Except String (List ℚ) :=
  match p with
  | .fn f =>
    .ok (if integrate then integrateOverTime F f tSubsamples
         else (tsOf F).map f)
  | .arr xs =>
    if xs.length = (tsOf F).length then .ok xs
    else .error "ValueError: shape mismatch"
  | .const c => .ok (List.replicate F.tchans c)

/-- Resolution of `bp_profile` in `add_signal`: a callable is evaluated
over the restricted frequency axis, an array must match its shape (else
`ValueError`), a scalar is broadcast over it. -/
def resolveBpProfile (p : SigProfile) (rfs : List ℚ) :
    Except String (List ℚ) :=
  match p with
  | .fn f => .ok (rfs.map f)
  | .arr xs =>
    if xs.length = rfs.length then .ok xs
    else .error "ValueError: shape mismatch"
  | .const c => .ok (List.replicate rfs.length c)

/-- `add_signal` step 1: resolve `bounding_f_range` to a raw column index
pair; the default is the full column range `(0, fchans)`. -/
def resolveBounding (F : Frame) (r : Option (ℚ × ℚ)) : ℤ × ℤ :=
  match r with
  | none => (0, (F.fchans : ℤ))
  | some (fa, fb) => (getIndex F fa, getIndex F fb)

/-- Normalized lower column bound of the restricted window, as used by the
slices `fs[bounding_min:bounding_max]` and
`data[:, bounding_min:bounding_max]`. -/
def boundLo (F : Frame) (r : Option (ℚ × ℚ)) : ℕ :=
  pySliceIdx (fsOf F).length (resolveBounding F r).1

/-- Normalized upper column bound of the restricted window. -/
def boundHi (F : Frame) (r : Option (ℚ × ℚ)) : ℕ :=
  pySliceIdx (fsOf F).length (resolveBounding F r).2

/-- Zero-padding of a signal patch into a full-size grid: the patch
occupies the column slice `[lo, hi)` (this is both the in-place update
`data[:, bounding_min:bounding_max] += signal` and the construction of
the returned `signal_frame`). -/
def padPatch (lo hi : ℕ) (sig : Grid) : Grid :=
  fun t c => if lo ≤ c ∧ c < hi then sig t (c - lo) else 0

/-- `Frame.add_signal`: the Signal Compositor.  Resolves the bounding
window to a column slice of the frequency axis, optionally expands it for
frequency integration (`f0 = restricted_fs[0]` raises `IndexError` on an
empty window), resolves the three polymorphic profiles (in source order:
frequency expansion, `t_profile`, `path`, `bp_profile`), forms the
product patch `t_profile[t] * f_profile(f[j], path[t]) * bp_profile[j]`,
optionally collapses the frequency sub-samples by Riemann means, adds the
patch into `data` over the restricted column slice, and returns the
mutated frame together with the zero-padded full-size signal grid. -/
def addSignal (F : Frame) (path tProfile : SigProfile)
    (fProfile : ℚ → ℚ → ℚ) (bpProfile : SigProfile)
    (boundingFRange : Option (ℚ × ℚ))
    (integratePath integrateTProfile integrateFProfile : Bool)
    (tSubsamples fSubsamples : ℕ) : Except String (Frame × Grid) :=
  let lo := boundLo F boundingFRange
  let hi := boundHi F boundingFRange
  let rfs0 := ((fsOf F).drop lo).take (hi - lo)
  let rfsE : Except String (List ℚ) :=
    if integrateFProfile then
      (pyGet rfs0 0).map
        (fun f0 => linspace f0 (f0 + rfs0.length * F.df)
                            (rfs0.length * fSubsamples))
    else .ok rfs0
  match rfsE with
  | .error e => .error e
  | .ok rfs =>
    match resolveTimeProfile F tProfile integrateTProfile tSubsamples with
    | .error e => .error e
    | .ok tp =>
      match resolveTimeProfile F path integratePath tSubsamples with
      | .error e => .error e
      | .ok pa =>
        match resolveBpProfile bpProfile rfs with
        | .error e => .error e
        | .ok bp =>
          let sigRaw : Grid := fun t j =>
            tp.getD t 0 * fProfile (rfs.getD j 0) (pa.getD t 0) * bp.getD j 0
          let sig : Grid :=
            if integrateFProfile then
              fun t c => listMean ((List.range fSubsamples).map
                (fun k => sigRaw t (c * fSubsamples + k)))
            else sigRaw
          let patch : Grid := padPatch lo hi sig
          .ok ({ F with data := fun t c => F.data t c + patch t c }, patch)

/-- Modelled from the spec: `funcs.paths.constant_path(f_start,
drift_rate)` is not under `src/`; per the spec it is the constant-drift
path, the line `t ↦ f_start + drift_rate * t`. -/
def constantPathFn (fStart driftRate : ℚ) : ℚ → ℚ :=
  fun t => fStart + driftRate * t

/-- Modelled from the spec: the named frequency-shape profiles in
`funcs.f_profiles` are not under `src/`; the spec fixes only the name set
{box, gaussian, lorentzian, voigt}, not the shapes, and no verified claim
depends on the shape, so all four names share a box-shaped stand-in of
the given width. -/
def namedFProfile (width : ℚ) : ℚ → ℚ → ℚ :=
  fun f center => if |f - center| ≤ width / 2 then 1 else 0

/-- `add_constant_signal` profile selection: the four recognized
`f_profile_type` names; anything else raises a ValueError
("UnsupportedProfile"). -/
def selectFProfile (fProfileType : String) (width : ℚ) :
    Except String (ℚ → ℚ → ℚ) :=
  if fProfileType = "gaussian" ∨ fProfileType = "lorentzian"
      ∨ fProfileType = "voigt" ∨ fProfileType = "box" then
    .ok (namedFProfile width)
  else .error "UnsupportedProfile"

/-- The Bounding-Box Optimizer arithmetic of `add_constant_signal`
(lines 550-563): start column by nearest-frequency lookup, signed
width offset `±2*width/df`, drift offset `dt*(tchans-1)*drift_rate/df`,
floor/ceil to integers, then clamp `[min, max]` into `[0, fchans]`. -/
def constantBoundingIndices (F : Frame) (fStart driftRate width : ℚ) :
    ℤ × ℤ :=
  let startIndex := getIndex F fStart
  let pxWidthOffset : ℚ :=
    if driftRate < 0 then -2 * width / F.df else 2 * width / F.df
  let pxDriftOffset : ℚ := F.dt * ((F.tchans : ℚ) - 1) * driftRate / F.df
  let boundingStartIndex := startIndex + ⌊-pxWidthOffset⌋
  let boundingStopIndex := startIndex + ⌈pxDriftOffset + pxWidthOffset⌉
  (max (min boundingStartIndex boundingStopIndex) 0,
   min (max boundingStartIndex boundingStopIndex) (F.fchans : ℤ))

/-- `Frame.add_constant_signal`: compute the bounding indices, select the
frequency profile by name, look the bounding indices back up in `fs`
(Python indexing, so `fs[bounding_max_index]` can raise `IndexError`),
and delegate to `add_signal` with constant path, time profile and
bandpass profile and the default integration options. -/
def addConstantSignal (F : Frame) (fStart driftRate level width : ℚ)
    (fProfileType : String) : Except String (Frame × Grid) :=
  let bounds := constantBoundingIndices F fStart driftRate width
  match selectFProfile fProfileType width with
  | .error e => .error e
  | .ok fProfile =>
    match pyGet (fsOf F) bounds.1 with
    | .error e => .error e
    | .ok fLo =>
      match pyGet (fsOf F) bounds.2 with
      | .error e => .error e
      | .ok fHi =>
        addSignal F (.fn (constantPathFn fStart driftRate))
          (.fn (fun _ => level)) fProfile (.fn (fun _ => 1))
          (some (fLo, fHi)) false false false 10 10

theorem arange_length (s e st : ℚ) :
    (arange s e st).length = (⌈(e - s) / st⌉).toNat := by
  simp only [arange, List.length_map, List.length_range]

theorem arange_getD (s e st : ℚ) (k : ℕ)
    (h : k < (arange s e st).length) :
    (arange s e st).getD k 0 = s + k * st := by
  rw [List.getD_eq_getElem _ _ h]
  simp only [arange] at h ⊢
  simp only [List.length_map] at h
  rw [List.getElem_map, List.getElem_range]

theorem rev_getD (l : List ℚ) (i : ℕ) (h : i < l.length) :
    l.reverse.getD i 0 = l.getD (l.length - 1 - i) 0 := by
  have h2 : i < l.reverse.length := by simpa using h
  rw [List.getD_eq_getElem _ _ h2]
  have h3 : l.length - 1 - i < l.length := by omega
  rw [List.getD_eq_getElem _ _ h3]
  rw [List.getElem_reverse]

theorem fs_length (F : Frame) (h : F.df ≠ 0) :
    (fsOf F).length = F.fchans := by
  rw [fsOf, List.length_reverse, arange_length]
  have h2 : (F.fmax - F.fchans * F.df - F.fmax) / -F.df = (F.fchans : ℚ) := by
    field_simp
  rw [h2]
  simp

theorem fs_getD (F : Frame) (h : F.df ≠ 0) (i : ℕ) (hi : i < F.fchans) :
    (fsOf F).getD i 0 = F.fmax + ((i : ℚ) + 1 - F.fchans) * F.df := by
  have hlen : (arange F.fmax (F.fmax - F.fchans * F.df) (-F.df)).length
      = F.fchans := by
    have := fs_length F h
    rw [fsOf, List.length_reverse] at this
    exact this
  rw [fsOf, rev_getD _ _ (by rw [hlen]; exact hi), hlen]
  rw [arange_getD _ _ _ _ (by rw [hlen]; omega)]
  have hcast : ((F.fchans - 1 - i : ℕ) : ℚ) = (F.fchans : ℚ) - 1 - i := by
    have h1 : 1 + i ≤ F.fchans := by omega
    rw [Nat.sub_sub, Nat.cast_sub h1]
    push_cast
    ring
  rw [hcast]
  ring

theorem fmin_eq (F : Frame) (h : F.df ≠ 0) (h0 : 0 < F.fchans) :
    fminOf F = F.fmax + (1 - (F.fchans : ℚ)) * F.df := by
  rw [fminOf, fs_getD F h 0 h0]
  push_cast
  ring

theorem ts_length (F : Frame) (h : F.dt ≠ 0) :
    (tsOf F).length = F.tchans := by
  rw [tsOf, arange_length]
  have h2 : ((F.tchans : ℚ) * F.dt - 0) / F.dt = (F.tchans : ℚ) := by
    field_simp
  rw [h2]
  simp

theorem ts_getD (F : Frame) (h : F.dt ≠ 0) (i : ℕ) (hi : i < F.tchans) :
    (tsOf F).getD i 0 = (i : ℚ) * F.dt := by
  rw [tsOf, arange_getD _ _ _ _ (by rw [← tsOf, ts_length F h]; exact hi)]
  ring

theorem npRound_abs_le (q : ℚ) : |(npRound q : ℚ) - q| ≤ 1 / 2 := by
  have h0 : (⌊q⌋ : ℚ) ≤ q := Int.floor_le q
  have h1 : q < ⌊q⌋ + 1 := Int.lt_floor_add_one q
  rw [npRound]
  split_ifs with ha hb hc
  · rw [abs_le]
    constructor <;> linarith
  · push_cast
    rw [abs_le]
    constructor <;> linarith
  · push_neg at ha hb
    have hr : q - (⌊q⌋ : ℚ) = 1 / 2 := le_antisymm hb ha
    rw [abs_le]
    constructor <;> linarith
  · push_neg at ha hb
    have hr : q - (⌊q⌋ : ℚ) = 1 / 2 := le_antisymm hb ha
    push_cast
    rw [abs_le]
    constructor <;> linarith

theorem npRound_nearest (q : ℚ) (j : ℤ) :
    |(npRound q : ℚ) - q| ≤ |(j : ℚ) - q| := by
  rcases eq_or_ne j (npRound q) with h | h
  · rw [h]
  · have hne : j - npRound q ≠ 0 := sub_ne_zero.mpr h
    have h1 : (1 : ℤ) ≤ |j - npRound q| := Int.one_le_abs hne
    have h1q : (1 : ℚ) ≤ |(j : ℚ) - (npRound q : ℚ)| := by
      have : ((|j - npRound q| : ℤ) : ℚ) = |(j : ℚ) - (npRound q : ℚ)| := by
        push_cast
        rfl
      rw [← this]
      exact_mod_cast h1
    have h2 := npRound_abs_le q
    have h3 : |(j : ℚ) - (npRound q : ℚ)|
        ≤ |(j : ℚ) - q| + |q - (npRound q : ℚ)| := abs_sub_le _ _ _
    have h4 : |q - (npRound q : ℚ)| = |(npRound q : ℚ) - q| := abs_sub_comm _ _
    linarith

theorem npRound_intCast (k : ℤ) : npRound (k : ℚ) = k := by
  rw [npRound]
  norm_num [Int.floor_intCast]

theorem pyGet_ok (xs : List ℚ) (i : ℤ) (h0 : 0 ≤ i)
    (h1 : i.toNat < xs.length) :
    pyGet xs i = .ok (xs.getD i.toNat 0) := by
  rw [pyGet]
  have hni : ¬ i < 0 := not_lt.mpr h0
  simp only [hni, if_false]
  rw [dif_pos ⟨h0, h1⟩]
  rw [List.getD_eq_getElem _ _ h1]
  rfl

theorem pyGet_wrap (xs : List ℚ) (i : ℤ) (h0 : i < 0)
    (h1 : 0 ≤ i + (xs.length : ℤ)) :
    pyGet xs i = .ok (xs.getD (i + (xs.length : ℤ)).toNat 0) := by
  rw [pyGet]
  simp only [h0, if_true]
  have h2 : (i + (xs.length : ℤ)).toNat < xs.length := by omega
  rw [dif_pos ⟨h1, h2⟩]
  rw [List.getD_eq_getElem _ _ h2]
  rfl

theorem pyGet_err (xs : List ℚ) (i : ℤ) (h0 : 0 ≤ i)
    (h1 : xs.length ≤ i.toNat) :
    pyGet xs i = .error "IndexError" := by
  rw [pyGet]
  have hni : ¬ i < 0 := not_lt.mpr h0
  simp only [hni, if_false]
  rw [dif_neg]
  omega

/-- A small concrete frame used by the witnesses: 4 frequency channels, 2
time rows, unit resolutions, top frequency 10, zero data and zero noise
statistics (so `fs = [7, 8, 9, 10]`, `ts = [0, 1]`). -/
def smallFrame : Frame :=
  ⟨4, 2, 1, 1, 10, fun _ _ => 0, 0, 0⟩

/-- The same frame with noise statistics `(0, 1)`, as after one noise
injection of unit standard deviation. -/
def noisyFrame : Frame :=
  ⟨4, 2, 1, 1, 10, fun _ _ => 0, 0, 1⟩

/-- C5 counterexample: on the concrete frame with `fchans = 4`, `df = 1`,
`fmax = 10`, the derived `fmin` is `7 = fmax - (fchans-1)*df`, not
`6 = fmax - fchans*df` as claimed. -/
theorem fmin_claim_counterexample :
    fminOf smallFrame ≠ smallFrame.fmax - smallFrame.fchans * smallFrame.df := by
  have h := fmin_eq smallFrame (by norm_num [smallFrame]) (by norm_num [smallFrame])
  rw [h]
  norm_num [smallFrame]

/-- C5 (amended): for every frame with valid geometry (`fchans > 0`,
`df ≠ 0`), after frequency-axis derivation
`fmin = fmax - (fchans - 1) * df` (the axis stores the centers of
`fchans` channels whose top value is `fmax`). -/
theorem fmin_after_derivation (F : Frame) (hdf : F.df ≠ 0)
    (h0 : 0 < F.fchans) :
    fminOf F = F.fmax - ((F.fchans : ℚ) - 1) * F.df := by
  rw [fmin_eq F hdf h0]
  ring

/-- C5 witness: the amended law evaluated on the concrete frame. -/
theorem fmin_after_derivation_witness :
    smallFrame.df ≠ 0 ∧ 0 < smallFrame.fchans
    ∧ fminOf smallFrame
        = smallFrame.fmax - ((smallFrame.fchans : ℚ) - 1) * smallFrame.df :=
  ⟨by norm_num [smallFrame], by norm_num [smallFrame],
   fmin_after_derivation smallFrame (by norm_num [smallFrame])
     (by norm_num [smallFrame])⟩

/-- C2: with noise present (`noise_std > 0`, `tchans > 0`),
`get_intensity(snr) = snr * noise_std / sqrt(tchans)`,
`get_snr(x) = x * sqrt(tchans) / noise_std`, and the round-trip
`get_intensity(get_snr(x)) = x`; with `noise_std = 0` both raise the
NoNoisePresent error. -/
theorem intensity_snr_calibration (F : Frame) (snr x : ℝ) :
    (0 < F.noise_std → 0 < F.tchans →
      getIntensity F snr = .ok (snr * F.noise_std / Real.sqrt F.tchans)
      ∧ getSnr F x = .ok (x * Real.sqrt F.tchans / F.noise_std)
      ∧ (getSnr F x).bind (fun y => getIntensity F y) = .ok x)
    ∧ (F.noise_std = 0 →
      getIntensity F snr = .error "NoNoisePresent"
      ∧ getSnr F x = .error "NoNoisePresent") := by
  constructor
  · intro hstd ht
    have hne : F.noise_std ≠ 0 := ne_of_gt hstd
    have hsq : Real.sqrt F.tchans ≠ 0 := by
      refine ne_of_gt (Real.sqrt_pos.mpr ?_)
      exact_mod_cast ht
    refine ⟨by rw [getIntensity, if_neg hne], by rw [getSnr, if_neg hne], ?_⟩
    rw [getSnr, if_neg hne]
    show getIntensity F _ = _
    rw [getIntensity, if_neg hne]
    congr 1
    field_simp
  · intro h0
    exact ⟨by rw [getIntensity, if_pos h0], by rw [getSnr, if_pos h0]⟩

/-- C2 witness: the round-trip law on the concrete noisy frame at
`x = 5`. -/
theorem intensity_snr_calibration_witness :
    (0 : ℝ) < noisyFrame.noise_std ∧ 0 < noisyFrame.tchans
    ∧ (getSnr noisyFrame 5).bind (fun y => getIntensity noisyFrame y)
        = .ok 5 :=
  ⟨by norm_num [noisyFrame], by norm_num [noisyFrame],
   ((intensity_snr_calibration noisyFrame 0 5).1
     (by norm_num [noisyFrame]) (by norm_num [noisyFrame])).2.2⟩

/-- Well-formedness of the derived axes: correct lengths, constant step
equal to the stored resolution, strict monotonicity, and a time axis that
starts at zero. -/
def axesWellFormed (F : Frame) : Prop :=
  (fsOf F).length = F.fchans ∧ (tsOf F).length = F.tchans
  ∧ (∀ i, i + 1 < F.fchans →
      (fsOf F).getD (i + 1) 0 = (fsOf F).getD i 0 + F.df
      ∧ (fsOf F).getD i 0 < (fsOf F).getD (i + 1) 0)
  ∧ (0 < F.tchans → (tsOf F).getD 0 0 = 0)
  ∧ (∀ i, i + 1 < F.tchans →
      (tsOf F).getD (i + 1) 0 = (tsOf F).getD i 0 + F.dt
      ∧ (tsOf F).getD i 0 < (tsOf F).getD (i + 1) 0)

theorem axes_wf (F : Frame) (hdf : 0 < F.df) (hdt : 0 < F.dt) :
    axesWellFormed F := by
  have hdf0 : F.df ≠ 0 := ne_of_gt hdf
  have hdt0 : F.dt ≠ 0 := ne_of_gt hdt
  refine ⟨fs_length F hdf0, ts_length F hdt0, ?_, ?_, ?_⟩
  · intro i hi
    rw [fs_getD F hdf0 (i + 1) hi, fs_getD F hdf0 i (by omega)]
    constructor
    · push_cast
      ring
    · push_cast
      nlinarith
  · intro h0
    rw [ts_getD F hdt0 0 h0]
    norm_num
  · intro i hi
    rw [ts_getD F hdt0 (i + 1) hi, ts_getD F hdt0 i (by omega)]
    constructor
    · push_cast
      ring
    · push_cast
      nlinarith

/-- C7: for every valid geometry (positive `df`, `dt`), the derived axes
have lengths `fchans` and `tchans`, are strictly increasing with constant
steps `df` and `dt`, and the time axis starts at 0; this holds for the
frame itself (hence after construction) and after every axis refresh
(`set_df`, `set_dt`, `set_data`). -/
theorem axes_invariant (F : Frame) (hdf : 0 < F.df) (hdt : 0 < F.dt) :
    axesWellFormed F
    ∧ (∀ d : ℚ, d ≠ 0 → axesWellFormed (setDf F d))
    ∧ (∀ d : ℚ, 0 < d → axesWellFormed (setDt F d))
    ∧ (∀ (g : Grid) (tch fch : ℕ), axesWellFormed (setData F g tch fch)) := by
  refine ⟨axes_wf F hdf hdt, ?_, ?_, ?_⟩
  · intro d hd
    exact axes_wf _ (by simpa [setDf] using abs_pos.mpr hd)
      (by simpa [setDf] using hdt)
  · intro d hd
    exact axes_wf _ (by simpa [setDt] using hdf) (by simpa [setDt] using hd)
  · intro g tch fch
    exact axes_wf _ (by simpa [setData] using hdf)
      (by simpa [setData] using hdt)

/-- C7 witness: the axis invariant on the concrete frame, surviving a
`set_df` refresh. -/
theorem axes_invariant_witness :
    (0 : ℚ) < smallFrame.df ∧ (0 : ℚ) < smallFrame.dt
    ∧ axesWellFormed smallFrame ∧ axesWellFormed (setDf smallFrame 2) :=
  ⟨by norm_num [smallFrame], by norm_num [smallFrame],
   (axes_invariant smallFrame (by norm_num [smallFrame])
     (by norm_num [smallFrame])).1,
   (axes_invariant smallFrame (by norm_num [smallFrame])
     (by norm_num [smallFrame])).2.1 2 (by norm_num)⟩

/-- C1: whenever `add_signal` succeeds, it is purely additive on the data
grid (every cell of the new grid is the old cell plus the returned
signal-grid cell), it leaves the noise statistics and the frame shape
unchanged, and the returned full-size grid is zero outside the restricted
column range (so inside the range it is exactly the added patch). -/
theorem add_signal_additive (F : Frame) (path tProfile : SigProfile)
    (fProfile : ℚ → ℚ → ℚ) (bpProfile : SigProfile)
    (r : Option (ℚ × ℚ)) (ip it ifp : Bool) (tSub fSub : ℕ)
    (G : Frame) (ret : Grid)
    (h : addSignal F path tProfile fProfile bpProfile r ip it ifp tSub fSub
      = .ok (G, ret)) :
    G.noise_mean = F.noise_mean ∧ G.noise_std = F.noise_std
    ∧ G.tchans = F.tchans ∧ G.fchans = F.fchans
    ∧ (∀ t c, G.data t c = F.data t c + ret t c)
    ∧ (∀ t c, c < boundLo F r ∨ boundHi F r ≤ c → ret t c = 0) := by
  simp only [addSignal] at h
  split at h
  · exact absurd h (by simp)
  · split at h
    · exact absurd h (by simp)
    · split at h
      · exact absurd h (by simp)
      · split at h
        · exact absurd h (by simp)
        · simp only [Except.ok.injEq, Prod.mk.injEq] at h
          obtain ⟨hG, hret⟩ := h
          subst hG
          subst hret
          refine ⟨rfl, rfl, rfl, rfl, fun t c => rfl, fun t c hc => ?_⟩
          rw [padPatch]
          exact if_neg (by omega)

/-- The concrete result of a successful `add_signal` call on the small
frame with scalar profiles, used by the C1 witness. -/
def c1Result : Frame × Grid :=
  match addSignal smallFrame (.const 7) (.const 1) (fun _ _ => 2) (.const 1)
      none false false false 10 10 with
  | .ok p => p
  | .error _ => (smallFrame, fun _ _ => 0)

/-- C1 witness: the additivity law instantiated on a concrete successful
call. -/
theorem add_signal_additive_witness :
    addSignal smallFrame (.const 7) (.const 1) (fun _ _ => 2) (.const 1)
      none false false false 10 10 = .ok c1Result
    ∧ c1Result.1.noise_mean = smallFrame.noise_mean
    ∧ c1Result.1.data 0 1 = smallFrame.data 0 1 + c1Result.2 0 1 := by
  have hok : addSignal smallFrame (.const 7) (.const 1) (fun _ _ => 2)
      (.const 1) none false false false 10 10 = .ok (c1Result.1, c1Result.2) :=
    rfl
  have hprops := add_signal_additive smallFrame (.const 7) (.const 1)
    (fun _ _ => 2) (.const 1) none false false false 10 10
    c1Result.1 c1Result.2 hok
  exact ⟨hok, hprops.1, hprops.2.2.2.2.1 0 1⟩

/-- C8 counterexample: with `integrate_f_profile` set, a zero-width window
is NOT legal: `f0 = restricted_fs[0]` indexes an empty array and the call
raises `IndexError` instead of returning an all-zero patch. -/
theorem add_signal_zero_width_counterexample :
    addSignal smallFrame (.const 7) (.const 1) (fun _ _ => 2) (.const 1)
      (some (8, 8)) false false true 10 10 = .error "IndexError" := by
  have hlh : boundHi smallFrame (some (8, 8))
      = boundLo smallFrame (some (8, 8)) := rfl
  have hrfs0 : ((fsOf smallFrame).drop (boundLo smallFrame (some (8, 8)))).take
      (boundHi smallFrame (some (8, 8)) - boundLo smallFrame (some (8, 8)))
      = ([] : List ℚ) := by
    rw [hlh, Nat.sub_self, List.take_zero]
  have hpg : pyGet ([] : List ℚ) 0 = .error "IndexError" :=
    pyGet_err [] 0 (by norm_num) (by simp)
  rw [addSignal]
  simp only [hrfs0, hpg, Except.map, if_true]

/-- On an empty column slice the zero-padded patch is the zero grid. -/
theorem padPatch_self (lo : ℕ) (sig : Grid) :
    padPatch lo lo sig = fun _ _ => (0 : ℚ) := by
  funext t c
  rw [padPatch]
  exact if_neg (by omega)

/-- C8 (amended): with `integrate_f_profile` off (and the other
integration options arbitrary), calling `add_signal` with a frequency
window whose two endpoints resolve to the same column index is legal for
any resolvable profiles, leaves `frame.data` and the noise statistics
unchanged, and returns an all-zero grid. -/
theorem add_signal_zero_width (F : Frame) (path tProfile : SigProfile)
    (fProfile : ℚ → ℚ → ℚ) (bpProfile : SigProfile) (fa fb : ℚ)
    (ip it : Bool) (tSub fSub : ℕ) (tp pa bp : List ℚ)
    (hidx : getIndex F fa = getIndex F fb)
    (hT : resolveTimeProfile F tProfile it tSub = .ok tp)
    (hP : resolveTimeProfile F path ip tSub = .ok pa)
    (hB : resolveBpProfile bpProfile [] = .ok bp) :
    ∃ G ret,
      addSignal F path tProfile fProfile bpProfile (some (fa, fb))
        ip it false tSub fSub = .ok (G, ret)
      ∧ (∀ t c, G.data t c = F.data t c) ∧ (∀ t c, ret t c = 0)
      ∧ G.noise_mean = F.noise_mean ∧ G.noise_std = F.noise_std := by
  refine ⟨F, fun _ _ => 0, ?_, fun t c => rfl, fun t c => rfl, rfl, rfl⟩
  have hlh : boundHi F (some (fa, fb)) = boundLo F (some (fa, fb)) := by
    simp only [boundLo, boundHi, resolveBounding, hidx]
  have hrfs0 : ((fsOf F).drop (boundLo F (some (fa, fb)))).take
      (boundHi F (some (fa, fb)) - boundLo F (some (fa, fb)))
      = ([] : List ℚ) := by
    rw [hlh, Nat.sub_self, List.take_zero]
  rw [addSignal]
  simp only [hrfs0, hT, hP, hB, Bool.false_eq_true, if_false]
  rw [hlh]
  rw [padPatch_self]
  simp only [add_zero]

/-- C8 witness: a zero-width window with `integrate_f_profile` off on the
concrete frame is accepted and adds nothing. -/
theorem add_signal_zero_width_witness :
    getIndex smallFrame 8 = getIndex smallFrame 8
    ∧ ∃ G ret,
        addSignal smallFrame (.const 7) (.const 1) (fun _ _ => 2) (.const 1)
          (some (8, 8)) false false false 10 10 = .ok (G, ret)
        ∧ (∀ t c, G.data t c = smallFrame.data t c) ∧ (∀ t c, ret t c = 0)
        ∧ G.noise_mean = smallFrame.noise_mean
        ∧ G.noise_std = smallFrame.noise_std :=
  ⟨rfl, add_signal_zero_width smallFrame (.const 7) (.const 1) (fun _ _ => 2)
    (.const 1) 8 8 false false 10 10 _ _ _ rfl rfl rfl rfl⟩

/-- C3: `add_noise` branch behaviour of the noise-statistics tracker.  If
the statistics sit at the zero-zero sentinel before the call they are set
directly to the parameters; otherwise they are recomputed from the
accumulated grid by 3-sigma clipping (up to 5 iterations) and taking the
mean and standard deviation of the survivors; the grid update itself is
always additive; and a first injection with `mean = std = 0` (no minimum)
leaves the data unchanged and the statistics at zero. -/
theorem add_noise_stats (F : Frame) (xMean xStd : ℚ) (xMin : Option ℚ)
    (u : Grid) :
    ((F.noise_mean = 0 ∧ F.noise_std = 0) →
      (addNoise F xMean xStd xMin u).1.noise_mean = (xMean : ℝ)
      ∧ (addNoise F xMean xStd xMin u).1.noise_std = (xStd : ℝ))
    ∧ (∀ t c, (addNoise F xMean xStd xMin u).1.data t c
        = F.data t c + (addNoise F xMean xStd xMin u).2 t c)
    ∧ (¬ (F.noise_mean = 0 ∧ F.noise_std = 0) →
      (addNoise F xMean xStd xMin u).1.noise_mean
        = (listMean (sigmaClipIter 5
            (frameList (addNoise F xMean xStd xMin u).1)) : ℝ)
      ∧ (addNoise F xMean xStd xMin u).1.noise_std
        = Real.sqrt (listVar (sigmaClipIter 5
            (frameList (addNoise F xMean xStd xMin u).1))))
    ∧ (xMean = 0 → xStd = 0 → xMin = none →
       F.noise_mean = 0 → F.noise_std = 0 →
      (∀ t c, (addNoise F xMean xStd xMin u).1.data t c = F.data t c)
      ∧ (addNoise F xMean xStd xMin u).1.noise_mean = 0
      ∧ (addNoise F xMean xStd xMin u).1.noise_std = 0) := by
  refine ⟨?_, ?_, ?_, ?_⟩
  · intro hs
    cases xMin <;> simp only [addNoise] <;> rw [if_pos hs] <;> exact ⟨rfl, rfl⟩
  · intro t c
    cases xMin <;> simp only [addNoise] <;>
      by_cases hs : F.noise_mean = 0 ∧ F.noise_std = 0
    · rw [if_pos hs]
    · rw [if_neg hs]
      rfl
    · rw [if_pos hs]
    · rw [if_neg hs]
      rfl
  · intro hs
    cases xMin <;> simp only [addNoise] <;> rw [if_neg hs] <;> exact ⟨rfl, rfl⟩
  · intro h1 h2 h3 h4 h5
    subst h1
    subst h2
    subst h3
    simp only [addNoise]
    rw [if_pos ⟨h4, h5⟩]
    refine ⟨fun t c => ?_, by push_cast; rfl, by push_cast; rfl⟩
    show F.data t c + gaussianNoise 0 0 u t c = F.data t c
    simp [gaussianNoise]

/-- C3 witness: branch behaviour on the concrete sentinel frame. -/
theorem add_noise_stats_witness :
    (smallFrame.noise_mean = 0 ∧ smallFrame.noise_std = 0)
    ∧ (addNoise smallFrame 3 2 none (fun _ _ => 5)).1.noise_mean = ((3 : ℚ) : ℝ)
    ∧ (addNoise smallFrame 3 2 none (fun _ _ => 5)).1.noise_std
        = ((2 : ℚ) : ℝ) :=
  ⟨⟨rfl, rfl⟩,
   (add_noise_stats smallFrame 3 2 none (fun _ _ => 5)).1 ⟨rfl, rfl⟩⟩

theorem getIndex_fs (F : Frame) (hdf : 0 < F.df) (k : ℕ)
    (hk : k < F.fchans) :
    getIndex F ((fsOf F).getD k 0) = (k : ℤ) := by
  have hdf0 : F.df ≠ 0 := ne_of_gt hdf
  have h0 : 0 < F.fchans := by omega
  rw [getIndex, fs_getD F hdf0 k hk, fminOf,
    fs_getD F hdf0 0 h0]
  have hq : (F.fmax + ((k : ℚ) + 1 - F.fchans) * F.df
      - (F.fmax + (((0 : ℕ) : ℚ) + 1 - F.fchans) * F.df)) / F.df = (k : ℚ) := by
    push_cast
    field_simp
    ring
  rw [hq]
  have hcast : ((k : ℤ) : ℚ) = (k : ℚ) := by push_cast; rfl
  rw [← hcast, npRound_intCast]

/-- C4: the Bounding-Box Optimizer of `add_constant_signal` computes
exactly the claimed window: start/stop columns `start ∓ width-offset`
(floor/ceil rounded) and `start ∓ width-offset + drift-offset`, the pair
`[min, max]` clamped into `[0, fchans]`; and whenever the clamped indices
are in axis range, the frequency window handed to `add_signal` resolves
back (via `get_index`) to exactly those two column indices. -/
theorem constant_signal_bounding (F : Frame) (fStart driftRate width : ℚ)
    (hdf : 0 < F.df) :
    (let s := getIndex F fStart
      + ⌊-(if driftRate < 0 then -2 * width / F.df else 2 * width / F.df)⌋
     let e := getIndex F fStart
      + ⌈F.dt * ((F.tchans : ℚ) - 1) * driftRate / F.df
          + (if driftRate < 0 then -2 * width / F.df else 2 * width / F.df)⌉
     constantBoundingIndices F fStart driftRate width
       = (max (min s e) 0, min (max s e) (F.fchans : ℤ)))
    ∧ ((constantBoundingIndices F fStart driftRate width).2 < (F.fchans : ℤ) →
       (constantBoundingIndices F fStart driftRate width).1
         ≤ (constantBoundingIndices F fStart driftRate width).2 →
       resolveBounding F (some
         ((fsOf F).getD
            (constantBoundingIndices F fStart driftRate width).1.toNat 0,
          (fsOf F).getD
            (constantBoundingIndices F fStart driftRate width).2.toNat 0))
         = constantBoundingIndices F fStart driftRate width) := by
  constructor
  · rfl
  · intro h2 h12
    have hb0 : 0 ≤ (constantBoundingIndices F fStart driftRate width).1 := by
      simp only [constantBoundingIndices]
      exact le_max_right _ 0
    have hb2 : 0 ≤ (constantBoundingIndices F fStart driftRate width).2 :=
      le_trans hb0 h12
    have hb1n : (constantBoundingIndices F fStart driftRate width).1.toNat
        < F.fchans := by omega
    have hb2n : (constantBoundingIndices F fStart driftRate width).2.toNat
        < F.fchans := by omega
    simp only [resolveBounding]
    rw [getIndex_fs F hdf _ hb1n, getIndex_fs F hdf _ hb2n]
    rw [Int.toNat_of_nonneg hb0, Int.toNat_of_nonneg hb2]

/-- C4 witness: the bounding-window law on the concrete frame with
`f_start = 8`, `drift_rate = 1`, `width = 1/4`. -/
theorem constant_signal_bounding_witness :
    (0 : ℚ) < smallFrame.df
    ∧ (let s := getIndex smallFrame 8
        + ⌊-(if (1 : ℚ) < 0 then -2 * (1/4) / smallFrame.df
             else 2 * (1/4) / smallFrame.df)⌋
       let e := getIndex smallFrame 8
        + ⌈smallFrame.dt * ((smallFrame.tchans : ℚ) - 1) * 1 / smallFrame.df
            + (if (1 : ℚ) < 0 then -2 * (1/4) / smallFrame.df
               else 2 * (1/4) / smallFrame.df)⌉
       constantBoundingIndices smallFrame 8 1 (1/4)
         = (max (min s e) 0, min (max s e) (smallFrame.fchans : ℤ))) :=
  ⟨by norm_num [smallFrame],
   (constant_signal_bounding smallFrame 8 1 (1/4)
     (by norm_num [smallFrame])).1⟩

/-- C9: when the clamped bounding stop column equals `fchans` (with the
start column still in range), `add_constant_signal` evaluates
`fs[bounding_max_index]` one past the end of the frequency axis and the
call raises `IndexError` instead of injecting a clamped signal. -/
theorem constant_signal_index_error (F : Frame)
    (fStart driftRate level width : ℚ) (hdf : 0 < F.df)
    (h1 : (constantBoundingIndices F fStart driftRate width).1
      < (F.fchans : ℤ))
    (h2 : (constantBoundingIndices F fStart driftRate width).2
      = (F.fchans : ℤ)) :
    addConstantSignal F fStart driftRate level width "gaussian"
      = .error "IndexError" := by
  have hlen := fs_length F (ne_of_gt hdf)
  have hb0 : 0 ≤ (constantBoundingIndices F fStart driftRate width).1 := by
    simp only [constantBoundingIndices]
    exact le_max_right _ 0
  have hsel : selectFProfile "gaussian" width = .ok (namedFProfile width) := by
    rw [selectFProfile, if_pos]
    exact Or.inl rfl
  have hlk1 : pyGet (fsOf F)
      (constantBoundingIndices F fStart driftRate width).1
      = .ok ((fsOf F).getD
          (constantBoundingIndices F fStart driftRate width).1.toNat 0) :=
    pyGet_ok _ _ hb0 (by omega)
  have hlk2 : pyGet (fsOf F)
      (constantBoundingIndices F fStart driftRate width).2
      = .error "IndexError" :=
    pyGet_err _ _ (by omega) (by omega)
  simp only [addConstantSignal, hsel, hlk1, hlk2]

/-- C9 witness: on the concrete frame, a start frequency at the top
channel with positive drift produces `bounding_max_index = fchans = 4`
and the call fails with `IndexError`. -/
theorem constant_signal_index_error_witness :
    addConstantSignal smallFrame 10 2 5 (1/2) "gaussian"
      = .error "IndexError" := by
  have hfmin : fminOf smallFrame = 7 := by
    rw [fmin_eq smallFrame (by norm_num [smallFrame]) (by norm_num [smallFrame])]
    norm_num [smallFrame]
  have hidx : getIndex smallFrame 10 = 3 := by
    rw [getIndex, hfmin]
    rw [show ((10 : ℚ) - 7) / smallFrame.df = ((3 : ℤ) : ℚ) by
      norm_num [smallFrame]]
    exact npRound_intCast 3
  have hbounds : constantBoundingIndices smallFrame 10 2 (1/2) = (2, 4) := by
    simp only [constantBoundingIndices, hidx]
    norm_num [smallFrame]
  exact constant_signal_index_error smallFrame 10 2 5 (1/2)
    (by norm_num [smallFrame]) (by rw [hbounds]; norm_num [smallFrame])
    (by rw [hbounds]; norm_num [smallFrame])

/-- C6: for every in-range frequency (`fmin ≤ f ≤ fmax`),
`get_frequency(get_index(f))` succeeds and returns the value of the
frequency axis nearest to `f`. -/
theorem get_frequency_get_index_nearest (F : Frame) (f : ℚ)
    (hdf : 0 < F.df) (h0 : 0 < F.fchans)
    (hlo : fminOf F ≤ f) (hhi : f ≤ F.fmax) :
    getFrequency F (getIndex F f)
      = .ok ((fsOf F).getD (getIndex F f).toNat 0)
    ∧ ∀ j, j < F.fchans →
        |(fsOf F).getD (getIndex F f).toNat 0 - f|
          ≤ |(fsOf F).getD j 0 - f| := by
  have hdf0 : F.df ≠ 0 := ne_of_gt hdf
  have hfmin := fmin_eq F hdf0 h0
  set q : ℚ := (f - fminOf F) / F.df with hqdef
  have hi : getIndex F f = npRound q := rfl
  have habs := npRound_abs_le q
  rw [abs_le] at habs
  have hq0 : 0 ≤ q := div_nonneg (by linarith) (le_of_lt hdf)
  have hq1 : q ≤ (F.fchans : ℚ) - 1 := by
    rw [hqdef, div_le_iff₀ hdf]
    have : (1 : ℚ) * F.df ≤ (F.fchans : ℚ) * F.df := by
      have : (1 : ℚ) ≤ (F.fchans : ℚ) := by exact_mod_cast h0
      nlinarith
    nlinarith [hfmin]
  have hi0 : 0 ≤ getIndex F f := by
    rw [hi]
    have hgt : (-1 : ℚ) < (npRound q : ℚ) := by linarith
    have hz : (-1 : ℤ) < npRound q := by exact_mod_cast hgt
    omega
  have hilt : getIndex F f < (F.fchans : ℤ) := by
    have hlt : (npRound q : ℚ) < (F.fchans : ℚ) := by linarith
    rw [hi]
    exact_mod_cast hlt
  have hitn : (getIndex F f).toNat < F.fchans := by omega
  have hcast : (((getIndex F f).toNat : ℕ) : ℚ) = ((getIndex F f : ℤ) : ℚ) := by
    exact_mod_cast congrArg Int.cast (Int.toNat_of_nonneg hi0)
  have hqdf : f - fminOf F = q * F.df := (div_mul_cancel₀ _ hdf0).symm
  have key : ∀ k : ℕ,
      F.fmax + ((k : ℚ) + 1 - F.fchans) * F.df - f = ((k : ℚ) - q) * F.df := by
    intro k
    have : fminOf F + (k : ℚ) * F.df - f = ((k : ℚ) - q) * F.df := by
      rw [sub_mul, ← hqdf]
      ring
    rw [← this, hfmin]
    ring
  constructor
  · rw [getFrequency]
    exact pyGet_ok _ _ hi0 (by rw [fs_length F hdf0]; exact hitn)
  · intro j hj
    rw [fs_getD F hdf0 _ hitn, fs_getD F hdf0 j hj, key, key, abs_mul, abs_mul,
      abs_of_pos hdf]
    apply mul_le_mul_of_nonneg_right _ (le_of_lt hdf)
    rw [hcast, hi]
    have hnear := npRound_nearest q (j : ℤ)
    have hjc : (((j : ℕ) : ℤ) : ℚ) = (j : ℚ) := by push_cast; rfl
    rw [hjc] at hnear
    exact hnear

/-- C6 witness: on the concrete frame, `f = 8.3` rounds to column 1 and
`get_frequency(get_index(8.3)) = 8`, the axis value nearest 8.3. -/
theorem get_frequency_get_index_nearest_witness :
    getFrequency smallFrame (getIndex smallFrame (83/10)) = .ok 8 := by
  have hfmin : fminOf smallFrame = 7 := by
    rw [fmin_eq smallFrame (by norm_num [smallFrame]) (by norm_num [smallFrame])]
    norm_num [smallFrame]
  have h := (get_frequency_get_index_nearest smallFrame (83/10)
    (by norm_num [smallFrame]) (by norm_num [smallFrame])
    (by rw [hfmin]; norm_num) (by norm_num [smallFrame])).1
  have hidx : getIndex smallFrame (83/10) = 1 := by
    simp only [getIndex, hfmin, npRound]
    norm_num [smallFrame]
  rw [hidx] at h
  rw [hidx]
  have hval : (fsOf smallFrame).getD (1 : ℤ).toNat 0 = 8 := by
    rw [show ((1 : ℤ)).toNat = 1 from rfl,
      fs_getD smallFrame (by norm_num [smallFrame]) 1 (by norm_num [smallFrame])]
    norm_num [smallFrame]
  rw [hval] at h
  exact h

/-- C10: `get_index` performs no range validation.  For `f` more than half
a channel below `fmin` the index is negative; if that negative index is
still within `-fchans` exclusive, `get_frequency` silently wraps to the
top end of the band, returning `fmax + (index + 1) * df`, which is
strictly farther from `f` than the axis value `fmin` (so not the nearest
value); and for any `g` more than half a channel above `fmax`,
`get_frequency(get_index(g))` raises an out-of-bounds `IndexError`. -/
theorem get_index_no_validation (F : Frame) (f : ℚ)
    (hdf : 0 < F.df) (h2 : 2 ≤ F.fchans)
    (hbelow : f < fminOf F - F.df / 2) :
    getIndex F f < 0
    ∧ (-(F.fchans : ℤ) < getIndex F f →
        getFrequency F (getIndex F f)
          = .ok (F.fmax + (((getIndex F f : ℤ) : ℚ) + 1) * F.df)
        ∧ |F.fmax + (((getIndex F f : ℤ) : ℚ) + 1) * F.df - f|
            > |fminOf F - f|)
    ∧ (∀ g : ℚ, F.fmax + F.df / 2 < g →
        getFrequency F (getIndex F g) = .error "IndexError") := by
  have hdf0 : F.df ≠ 0 := ne_of_gt hdf
  have h0 : 0 < F.fchans := by omega
  have hfmin := fmin_eq F hdf0 h0
  have hlen := fs_length F hdf0
  set q : ℚ := (f - fminOf F) / F.df with hqdef
  have hi : getIndex F f = npRound q := rfl
  have habs := npRound_abs_le q
  rw [abs_le] at habs
  have hqneg : q < -(1 / 2) := by
    rw [hqdef, div_lt_iff₀ hdf]
    nlinarith
  have hineg : getIndex F f < 0 := by
    rw [hi]
    have hlt : (npRound q : ℚ) < 0 := by linarith
    exact_mod_cast hlt
  refine ⟨hineg, ?_, ?_⟩
  · intro hwrap
    have hiwrapq : (1 : ℤ) ≤ getIndex F f + (F.fchans : ℤ) := by omega
    have hlenpos : 0 ≤ getIndex F f + ((fsOf F).length : ℤ) := by
      rw [hlen]
      omega
    have hok := pyGet_wrap (fsOf F) (getIndex F f) hineg hlenpos
    set k : ℕ := (getIndex F f + ((fsOf F).length : ℤ)).toNat with hkdef
    have hkn : k < F.fchans := by
      rw [hkdef, hlen]
      omega
    have hkc : (k : ℚ) = ((getIndex F f : ℤ) : ℚ) + (F.fchans : ℚ) := by
      have h1 : (k : ℤ) = getIndex F f + (F.fchans : ℤ) := by
        rw [hkdef, hlen]
        omega
      exact_mod_cast congrArg (fun z : ℤ => (z : ℚ)) h1
    have hval : (fsOf F).getD k 0
        = F.fmax + (((getIndex F f : ℤ) : ℚ) + 1) * F.df := by
      rw [fs_getD F hdf0 k hkn, hkc]
      ring
    have hv : F.fmax + (((getIndex F f : ℤ) : ℚ) + 1) * F.df - f
        = (fminOf F - f)
          + (((getIndex F f : ℤ) : ℚ) + (F.fchans : ℚ)) * F.df := by
      linear_combination -hfmin
    have hin1 : (1 : ℚ) ≤ ((getIndex F f : ℤ) : ℚ) + (F.fchans : ℚ) := by
      exact_mod_cast hiwrapq
    have hfpos : 0 < fminOf F - f := by linarith
    have hge : 1 * F.df ≤ (((getIndex F f : ℤ) : ℚ) + (F.fchans : ℚ)) * F.df :=
      mul_le_mul_of_nonneg_right hin1 (le_of_lt hdf)
    constructor
    · rw [getFrequency, hok, hval]
    · rw [abs_of_pos (by linarith), abs_of_pos hfpos]
      linarith
  · intro g hg
    set p : ℚ := (g - fminOf F) / F.df with hpdef
    have hig : getIndex F g = npRound p := rfl
    have habsg := npRound_abs_le p
    rw [abs_le] at habsg
    have hpbig : (F.fchans : ℚ) - 1 + 1 / 2 < p := by
      rw [hpdef, lt_div_iff₀ hdf]
      nlinarith
    have higc : (F.fchans : ℤ) ≤ getIndex F g := by
      rw [hig]
      have : (F.fchans : ℚ) - 1 < (npRound p : ℚ) := by linarith
      have hz : (F.fchans : ℤ) - 1 < npRound p := by exact_mod_cast this
      omega
    rw [getFrequency]
    exact pyGet_err _ _ (by omega) (by rw [hlen]; omega)

/-- C10 witness: on the concrete frame (`fmin = 7`, `df = 1`), the
frequency `6.4` maps to index `-1`, which silently wraps to the top axis
value `10` instead of the nearest value `7`, and the frequency `10.6`
maps past the end and raises `IndexError`. -/
theorem get_index_no_validation_witness :
    getIndex smallFrame (32/5) < 0
    ∧ getFrequency smallFrame (getIndex smallFrame (32/5)) = .ok 10
    ∧ getFrequency smallFrame (getIndex smallFrame (53/5))
        = .error "IndexError" := by
  have hfmin : fminOf smallFrame = 7 := by
    rw [fmin_eq smallFrame (by norm_num [smallFrame]) (by norm_num [smallFrame])]
    norm_num [smallFrame]
  have hthm := get_index_no_validation smallFrame (32/5)
    (by norm_num [smallFrame]) (by norm_num [smallFrame])
    (by rw [hfmin]; norm_num [smallFrame])
  have hidx : getIndex smallFrame (32/5) = -1 := by
    simp only [getIndex, hfmin, npRound]
    norm_num [smallFrame]
  refine ⟨hthm.1, ?_, hthm.2.2 (53/5) (by norm_num [smallFrame])⟩
  have h := (hthm.2.1 (by rw [hidx]; norm_num [smallFrame])).1
  rw [hidx] at h ⊢
  rw [h]
  exact congrArg Except.ok (by push_cast; norm_num [smallFrame])
